import Mathlib

/-!
Verification of the RustBuddy trigger layer (src/buddy/src/hotkey.rs and
src/buddy/src/transcription.rs), shallowly embedded in Lean.

Strings from the Rust source are modelled as `List Char` (the character
sequence of a `&str`).  The character helpers below translate the exact
standard-library operations the source calls (`str::split('+')`,
`str::trim`, `str::to_lowercase`), restricted to the ASCII range in which
the hotkey grammar lives.
-/

/-- Translates Rust `char::to_lowercase` on the ASCII range (the only range
the hotkey grammar's tokens inhabit): an ASCII uppercase letter is shifted
down by 32, every other character is unchanged. -/
def rustToLower (c : Char) : Char :=
  if 65 ≤ c.toNat ∧ c.toNat ≤ 90 then Char.ofNat (c.toNat + 32) else c

/-- Translates Rust `char::is_whitespace` on the ASCII range: horizontal
tab, line feed, vertical tab, form feed, carriage return and space. -/
def rustIsWhitespace (c : Char) : Bool :=
  decide (c.toNat = 9 ∨ c.toNat = 10 ∨ c.toNat = 11 ∨ c.toNat = 12
    ∨ c.toNat = 13 ∨ c.toNat = 32)

/-- Translates Rust `str::trim`: drop whitespace from both ends. -/
def trimChars (l : List Char) : List Char :=
  ((l.dropWhile rustIsWhitespace).reverse.dropWhile rustIsWhitespace).reverse

/-- Translates Rust `str::split('+')`: the list of `'+'`-separated pieces.
Like the Rust iterator, it yields one (possibly empty) piece more than the
number of separators, and yields `[[]]` on the empty string. -/
def splitPlus : List Char → List (List Char)
  | [] => [[]]
  | c :: cs =>
    if c = '+' then [] :: splitPlus cs
    else
      match splitPlus cs with
      | t :: ts => (c :: t) :: ts
      | [] => [[c]]

/-- The per-token normalisation `token.trim().to_lowercase()` performed by
`parse_hotkey` (hotkey.rs line 73). -/
def normalizeToken (tok : List Char) : List Char :=
  (trimChars tok).map rustToLower

/-- Translates `global_hotkey::hotkey::Modifiers` as used by hotkey.rs: a
bit set with the three flags the parser can produce. -/
structure Modifiers where
  control : Bool
  alt : Bool
  shift : Bool
deriving DecidableEq, Repr

def Modifiers.empty : Modifiers := ⟨false, false, false⟩

def Modifiers.CONTROL : Modifiers := ⟨true, false, false⟩

def Modifiers.ALT : Modifiers := ⟨false, true, false⟩

def Modifiers.SHIFT : Modifiers := ⟨false, false, true⟩

/-- Translates the Rust `|=` on `Modifiers` (bitwise union of flag sets). -/
def Modifiers.union (a b : Modifiers) : Modifiers :=
  ⟨a.control || b.control, a.alt || b.alt, a.shift || b.shift⟩

/-- Translates the subset of `global_hotkey::hotkey::Code` reachable from
`parse_code` (hotkey.rs lines 89-130): the 36 alphanumeric key codes. -/
inductive Code where
  | KeyA | KeyB | KeyC | KeyD | KeyE | KeyF | KeyG | KeyH | KeyI
  | KeyJ | KeyK | KeyL | KeyM | KeyN | KeyO | KeyP | KeyQ | KeyR
  | KeyS | KeyT | KeyU | KeyV | KeyW | KeyX | KeyY | KeyZ
  | Digit0 | Digit1 | Digit2 | Digit3 | Digit4 | Digit5 | Digit6
  | Digit7 | Digit8 | Digit9
deriving DecidableEq, Repr

/-- Translates the I/O error payload carried by `HotkeyError::Interrupt`
(`std::io::Error`), reduced to its message. -/
structure IOErr where
  msg : List Char
deriving DecidableEq, Repr

/-- Translates `HotkeyError` (hotkey.rs lines 11-19) for the non-Windows
build: the `Manager` and `Register` variants are Windows-only. -/
inductive HotkeyError where
  | Parse (token : List Char)
  | Channel
  | Interrupt (e : IOErr)
deriving DecidableEq, Repr

/-- Translates `parse_code` (hotkey.rs lines 89-130): maps the 36
single-character alphanumeric tokens to their key codes, everything else
to `none`. -/
def parse_code (key : List Char) : Option Code :=
  match key with
  | ['a'] => some Code.KeyA
  | ['b'] => some Code.KeyB
  | ['c'] => some Code.KeyC
  | ['d'] => some Code.KeyD
  | ['e'] => some Code.KeyE
  | ['f'] => some Code.KeyF
  | ['g'] => some Code.KeyG
  | ['h'] => some Code.KeyH
  | ['i'] => some Code.KeyI
  | ['j'] => some Code.KeyJ
  | ['k'] => some Code.KeyK
  | ['l'] => some Code.KeyL
  | ['m'] => some Code.KeyM
  | ['n'] => some Code.KeyN
  | ['o'] => some Code.KeyO
  | ['p'] => some Code.KeyP
  | ['q'] => some Code.KeyQ
  | ['r'] => some Code.KeyR
  | ['s'] => some Code.KeyS
  | ['t'] => some Code.KeyT
  | ['u'] => some Code.KeyU
  | ['v'] => some Code.KeyV
  | ['w'] => some Code.KeyW
  | ['x'] => some Code.KeyX
  | ['y'] => some Code.KeyY
  | ['z'] => some Code.KeyZ
  | ['0'] => some Code.Digit0
  | ['1'] => some Code.Digit1
  | ['2'] => some Code.Digit2
  | ['3'] => some Code.Digit3
  | ['4'] => some Code.Digit4
  | ['5'] => some Code.Digit5
  | ['6'] => some Code.Digit6
  | ['7'] => some Code.Digit7
  | ['8'] => some Code.Digit8
  | ['9'] => some Code.Digit9
  | _ => none

/-- The token loop of `parse_hotkey` (hotkey.rs lines 72-83): each token is
trimmed and lowercased, modifier tokens are folded into the accumulating
modifier set, any other token is looked up with `parse_code` and, on
success, overwrites the accumulated key; an unrecognised token aborts with
`Parse` naming it (the `?` on line 80). -/
def parseHotkeyLoop :
    Modifiers → Option Code → List (List Char) →
      Except HotkeyError (Modifiers × Option Code)
  | m, c, [] => Except.ok (m, c)
  | m, c, tok :: rest =>
    let token := normalizeToken tok
    if token = "ctrl".data ∨ token = "control".data then
      parseHotkeyLoop (m.union Modifiers.CONTROL) c rest
    else if token = "alt".data then
      parseHotkeyLoop (m.union Modifiers.ALT) c rest
    else if token = "shift".data then
      parseHotkeyLoop (m.union Modifiers.SHIFT) c rest
    else
      match parse_code token with
      | some k => parseHotkeyLoop m (some k) rest
      | none => Except.error (HotkeyError.Parse token)

/-- Translates `parse_hotkey` (hotkey.rs lines 59-86): split the spec on
`'+'`, run the token loop, then require that some non-modifier token set
the key (`ok_or_else` on line 84, which otherwise fails with
`Parse("missing key")`). -/
def parse_hotkey (hotkey : List Char) : Except HotkeyError (Modifiers × Code) :=
  match parseHotkeyLoop Modifiers.empty none (splitPlus hotkey) with
  | Except.error e => Except.error e
  | Except.ok (m, some k) => Except.ok (m, k)
  | Except.ok (_, none) => Except.error (HotkeyError.Parse "missing key".data)

deriving instance DecidableEq for Except

/-- Translates the outcome of one `std::io::Stdin::read_line` call as used
by the fallback `wait` (hotkey.rs line 175).  `ok line` is `Ok(n)` with
`line` the appended bytes: per the standard library, `line` ends in a
newline when a line completed, and has no trailing newline (possibly being
empty, the `Ok(0)` case) exactly when the stream reached end of file —
i.e. was closed — before a line completed.  `err e` is `Err(e)`. -/
inductive ReadLineOutcome where
  | ok (line : List Char)
  | err (e : IOErr)
deriving DecidableEq, Repr

/-- A completed input line: the bytes read end with a newline. -/
def lineCompleted (line : List Char) : Bool :=
  decide (line.getLast? = some (Char.ofNat 10))

/-- Translates the fallback (non-Windows) `HotkeyListener` (hotkey.rs lines
53-56): only the display label is stored. -/
structure HotkeyListener where
  label : List Char
deriving DecidableEq, Repr

/-- Translates the fallback `HotkeyListener::wait` (hotkey.rs lines
172-179): after printing the prompt it performs one `read_line`; an I/O
error is mapped to `Interrupt` by `map_err` and propagated by `?`, and any
successful read — whatever was read — yields `Ok(())`. -/
def HotkeyListener.wait (_l : HotkeyListener) (outcome : ReadLineOutcome) :
    Except HotkeyError Unit :=
  match outcome with
  | ReadLineOutcome.ok _ => Except.ok ()
  | ReadLineOutcome.err e => Except.error (HotkeyError.Interrupt e)

/-- Translates `vosk::CompleteResult`'s single-hypothesis payload, reduced
to the one field `extract_text` reads. -/
structure SingleResult where
  text : List Char
deriving DecidableEq, Repr

/-- Translates one `vosk` n-best alternative, reduced to the one field
`extract_text` reads. -/
structure ResultAlternative where
  text : List Char
deriving DecidableEq, Repr

/-- Translates `vosk::CompleteResult`'s multi-hypothesis payload: the list
of n-best alternatives. -/
structure MultipleResult where
  alternatives : List ResultAlternative
deriving DecidableEq, Repr

/-- Translates `vosk::CompleteResult` (transcription.rs line 3). -/
inductive CompleteResult where
  | Single (s : SingleResult)
  | Multiple (m : MultipleResult)
deriving DecidableEq, Repr

/-- Translates `extract_text` (transcription.rs lines 47-56): a single
result's text verbatim; for a multiple result the first alternative's text
(`first().map(...)`) or, via `unwrap_or_default`, the empty string. -/
def extract_text : CompleteResult → List Char
  | CompleteResult.Single single => single.text
  | CompleteResult.Multiple multi =>
    ((multi.alternatives.head?).map ResultAlternative.text).getD []

/-- Translates `TranscriptionError` (transcription.rs lines 58-62). -/
inductive TranscriptionError where
  | Model (msg : List Char)
  | Recognizer (msg : List Char)
deriving DecidableEq, Repr

/-- Translates the `Transcriber` struct (transcription.rs lines 5-8) over
an abstract model type `M` (`Arc<Model>` is an opaque handle here).  The
`sample_rate` field is the `f32` stored by `new`; no arithmetic is ever
performed on it, so it is modelled through the `u32` it was cast from. -/
structure Transcriber (M : Type) where
  model : M
  sample_rate : Nat
deriving DecidableEq, Repr

/-- The behaviour of the external `vosk` recognizer API that `transcribe`
calls into, over an abstract recognizer-state type `R`:
`Recognizer::new` (which may fail, returning `None`), the mutating
`accept_waveform`, and `final_result`. -/
structure VoskEnv (M R : Type) where
  newRecognizer : M → Nat → Option R
  acceptWaveform : R → List Int → R
  finalResult : R → CompleteResult

/-- Translates `Transcriber::transcribe` (transcription.rs lines 22-32):
empty audio short-circuits to `Ok("")` before any recognizer is created;
otherwise a fresh recognizer is built from the stored model and sample
rate (`None` becoming a `Recognizer` error), fed the whole buffer once,
and its final result goes through `extract_text`.  Audio samples (`i16`)
are modelled as integers. -/
def Transcriber.transcribe {M R : Type} (t : Transcriber M)
    (env : VoskEnv M R) (audio : List Int) :
    Except TranscriptionError (List Char) :=
  if audio.isEmpty then Except.ok []
  else
    match env.newRecognizer t.model t.sample_rate with
    | none => Except.error
        (TranscriptionError.Recognizer "failed to create recognizer".data)
    | some r =>
      let r := env.acceptWaveform r audio
      Except.ok (extract_text (env.finalResult r))

/-- One `transcribe` call viewed as a state transition on the
`Transcriber`.  The source method takes `&self` and the struct has no
interior mutability, so the Rust borrow discipline itself guarantees the
`Transcriber` value after the call is the value before it; the pair
returns the call's result together with that unchanged state. -/
def transcribeCall {M R : Type} (t : Transcriber M) (env : VoskEnv M R)
    (audio : List Int) :
    Except TranscriptionError (List Char) × Transcriber M :=
  (t.transcribe env audio, t)

/-- A normalised token the loop folds into the modifier set rather than
treating as a key: one of the four modifier spellings of hotkey.rs lines
75-77. -/
def isModifierTok (t : List Char) : Prop :=
  t = "ctrl".data ∨ t = "control".data ∨ t = "alt".data ∨ t = "shift".data

instance (t : List Char) : Decidable (isModifierTok t) := by
  unfold isModifierTok; infer_instance

/-- The non-modifier tokens of a hotkey spec, in input order: the tokens
that reach the `parse_code` branch of the loop. -/
def nonModifierTokens (s : List Char) : List (List Char) :=
  (splitPlus s).filter fun tok => decide (¬ isModifierTok (normalizeToken tok))

/-- The key accumulator's final value when the loop runs over `toks`
starting from accumulated key `c` and every non-modifier token parses:
each non-modifier token overwrites it with its own code. -/
def lastKey (c : Option Code) : List (List Char) → Option Code
  | [] => c
  | tok :: rest =>
    if isModifierTok (normalizeToken tok) then lastKey c rest
    else lastKey (parse_code (normalizeToken tok)) rest

theorem rustToLower_eq_of_upper {c : Char} (h : 65 ≤ c.toNat ∧ c.toNat ≤ 90) :
    rustToLower c = Char.ofNat (c.toNat + 32) := by
  simp only [rustToLower]; rw [if_pos h]

theorem rustToLower_eq_of_not_upper {c : Char}
    (h : ¬(65 ≤ c.toNat ∧ c.toNat ≤ 90)) : rustToLower c = c := by
  simp only [rustToLower]; rw [if_neg h]

theorem charOfNat_lower_props (n : Nat) (h1 : 97 ≤ n) (h2 : n ≤ 122) :
    rustToLower (Char.ofNat n) = Char.ofNat n ∧
    rustIsWhitespace (Char.ofNat n) = false ∧
    Char.ofNat n ≠ '+' := by
  interval_cases n <;> exact (by decide)

theorem rustToLower_idem (c : Char) :
    rustToLower (rustToLower c) = rustToLower c := by
  by_cases h : 65 ≤ c.toNat ∧ c.toNat ≤ 90
  · rw [rustToLower_eq_of_upper h]
    exact (charOfNat_lower_props (c.toNat + 32) (by omega) (by omega)).1
  · rw [rustToLower_eq_of_not_upper h, rustToLower_eq_of_not_upper h]

theorem rustIsWhitespace_rustToLower (c : Char) :
    rustIsWhitespace (rustToLower c) = rustIsWhitespace c := by
  by_cases h : 65 ≤ c.toNat ∧ c.toNat ≤ 90
  · rw [rustToLower_eq_of_upper h,
      (charOfNat_lower_props (c.toNat + 32) (by omega) (by omega)).2.1]
    obtain ⟨h1, h2⟩ := h
    have hc : rustIsWhitespace c = false := by
      simp only [rustIsWhitespace, decide_eq_false_iff_not]
      omega
    rw [hc]
  · rw [rustToLower_eq_of_not_upper h]

theorem rustToLower_plus : rustToLower '+' = '+' := by decide

theorem rustToLower_ne_plus {c : Char} (h : c ≠ '+') : rustToLower c ≠ '+' := by
  by_cases hu : 65 ≤ c.toNat ∧ c.toNat ≤ 90
  · rw [rustToLower_eq_of_upper hu]
    exact (charOfNat_lower_props (c.toNat + 32) (by omega) (by omega)).2.2
  · rw [rustToLower_eq_of_not_upper hu]; exact h

theorem dropWhile_map_of_inv (f : Char → Char) (p : Char → Bool)
    (hp : ∀ c, p (f c) = p c) :
    ∀ l : List Char, (l.map f).dropWhile p = (l.dropWhile p).map f := by
  intro l
  induction l with
  | nil => rfl
  | cons c cs ih =>
    simp only [List.map_cons, List.dropWhile_cons, hp c]
    by_cases h : p c
    · simp [h, ih]
    · simp [h]

theorem trimChars_map_rustToLower (l : List Char) :
    trimChars (l.map rustToLower) = (trimChars l).map rustToLower := by
  unfold trimChars
  rw [dropWhile_map_of_inv _ _ rustIsWhitespace_rustToLower l,
    ← List.map_reverse, dropWhile_map_of_inv _ _ rustIsWhitespace_rustToLower,
    ← List.map_reverse]

theorem splitPlus_ne_nil (l : List Char) : splitPlus l ≠ [] := by
  cases l with
  | nil => simp [splitPlus]
  | cons c cs =>
    simp only [splitPlus]
    by_cases h : c = '+'
    · simp [h]
    · rw [if_neg h]
      cases hs : splitPlus cs <;> simp

theorem splitPlus_map_rustToLower (l : List Char) :
    splitPlus (l.map rustToLower) = (splitPlus l).map (List.map rustToLower) := by
  induction l with
  | nil => rfl
  | cons c cs ih =>
    by_cases h : c = '+'
    · subst h
      simp only [List.map_cons, rustToLower_plus, splitPlus, ih]
      simp
    · have h2 : rustToLower c ≠ '+' := rustToLower_ne_plus h
      simp only [List.map_cons, splitPlus, if_neg h, if_neg h2, ih]
      cases hs : splitPlus cs with
      | nil => exact absurd hs (splitPlus_ne_nil cs)
      | cons t ts => simp [hs]

theorem normalizeToken_map_rustToLower (tok : List Char) :
    normalizeToken (tok.map rustToLower) = normalizeToken tok := by
  unfold normalizeToken
  rw [trimChars_map_rustToLower, List.map_map]
  exact List.map_congr_left fun x _ => rustToLower_idem x

theorem parseHotkeyLoop_map_rustToLower (toks : List (List Char)) :
    ∀ (m : Modifiers) (c : Option Code),
      parseHotkeyLoop m c (toks.map (List.map rustToLower)) =
        parseHotkeyLoop m c toks := by
  induction toks with
  | nil => intro m c; rfl
  | cons tok rest ih =>
    intro m c
    simp only [List.map_cons, parseHotkeyLoop,
      normalizeToken_map_rustToLower tok, ih]

theorem parse_hotkey_map_rustToLower (s : List Char) :
    parse_hotkey (s.map rustToLower) = parse_hotkey s := by
  unfold parse_hotkey
  rw [splitPlus_map_rustToLower, parseHotkeyLoop_map_rustToLower]

theorem parseHotkeyLoop_ok_of_valid (toks : List (List Char)) :
    ∀ (m : Modifiers) (c : Option Code),
      (∀ tok ∈ toks, ¬ isModifierTok (normalizeToken tok) →
        (parse_code (normalizeToken tok)).isSome) →
      ∃ m', parseHotkeyLoop m c toks = Except.ok (m', lastKey c toks) := by
  induction toks with
  | nil => intro m c _; exact ⟨m, rfl⟩
  | cons tok rest ih =>
    intro m c h
    have hrest : ∀ t ∈ rest, ¬ isModifierTok (normalizeToken t) →
        (parse_code (normalizeToken t)).isSome :=
      fun t ht => h t (List.mem_cons_of_mem _ ht)
    by_cases hmod : isModifierTok (normalizeToken tok)
    · have hlk : lastKey c (tok :: rest) = lastKey c rest := by
        simp only [lastKey, if_pos hmod]
      rw [hlk]
      rcases hmod with h1 | h1 | h1 | h1
      · simp only [parseHotkeyLoop, h1]
        rw [if_pos (Or.inl trivial)]
        exact ih (m.union Modifiers.CONTROL) c hrest
      · simp only [parseHotkeyLoop, h1]
        rw [if_pos (Or.inr trivial)]
        exact ih (m.union Modifiers.CONTROL) c hrest
      · simp only [parseHotkeyLoop, h1]
        rw [if_neg (by decide), if_pos trivial]
        exact ih (m.union Modifiers.ALT) c hrest
      · simp only [parseHotkeyLoop, h1]
        rw [if_neg (by decide), if_neg (by decide), if_pos trivial]
        exact ih (m.union Modifiers.SHIFT) c hrest
    · have hs := h tok (List.mem_cons_self tok rest) hmod
      obtain ⟨k, hk⟩ := Option.isSome_iff_exists.mp hs
      have hnot := hmod
      unfold isModifierTok at hnot
      push_neg at hnot
      obtain ⟨h1, h2, h3, h4⟩ := hnot
      have hlk : lastKey c (tok :: rest) =
          lastKey (parse_code (normalizeToken tok)) rest := by
        simp only [lastKey, if_neg hmod]
      rw [hlk, hk]
      simp only [parseHotkeyLoop]
      rw [if_neg (not_or.mpr ⟨h1, h2⟩), if_neg h3, if_neg h4, hk]
      exact ih m (some k) hrest

theorem lastKey_eq_filter_getLast (toks : List (List Char)) :
    ∀ c : Option Code,
      lastKey c toks =
        (((toks.filter fun tok =>
            decide (¬ isModifierTok (normalizeToken tok))).getLast?).map
          fun tok => parse_code (normalizeToken tok)).getD c := by
  induction toks with
  | nil => intro c; rfl
  | cons tok rest ih =>
    intro c
    by_cases hmod : isModifierTok (normalizeToken tok)
    · have hf : ((tok :: rest).filter fun t =>
          decide (¬ isModifierTok (normalizeToken t)))
          = rest.filter fun t => decide (¬ isModifierTok (normalizeToken t)) := by
        simp [List.filter_cons, hmod]
      simp only [lastKey, if_pos hmod, hf]
      exact ih c
    · have hf : ((tok :: rest).filter fun t =>
          decide (¬ isModifierTok (normalizeToken t)))
          = tok :: rest.filter fun t =>
              decide (¬ isModifierTok (normalizeToken t)) := by
        simp [List.filter_cons, hmod]
      simp only [lastKey, if_neg hmod, hf]
      rw [ih (parse_code (normalizeToken tok)), List.getLast?_cons]
      cases hfl : (rest.filter fun t =>
          decide (¬ isModifierTok (normalizeToken t))).getLast? with
      | none => rfl
      | some t => rfl

theorem parseHotkeyLoop_all_modifiers (toks : List (List Char)) :
    ∀ (m : Modifiers) (c : Option Code),
      (∀ tok ∈ toks, isModifierTok (normalizeToken tok)) →
      ∃ m', parseHotkeyLoop m c toks = Except.ok (m', c) := by
  induction toks with
  | nil => intro m c _; exact ⟨m, rfl⟩
  | cons tok rest ih =>
    intro m c h
    have hrest : ∀ t ∈ rest, isModifierTok (normalizeToken t) :=
      fun t ht => h t (List.mem_cons_of_mem _ ht)
    rcases h tok (List.mem_cons_self tok rest) with h1 | h1 | h1 | h1
    · simp only [parseHotkeyLoop, h1]
      rw [if_pos (Or.inl trivial)]
      exact ih _ c hrest
    · simp only [parseHotkeyLoop, h1]
      rw [if_pos (Or.inr trivial)]
      exact ih _ c hrest
    · simp only [parseHotkeyLoop, h1]
      rw [if_neg (by decide), if_pos trivial]
      exact ih _ c hrest
    · simp only [parseHotkeyLoop, h1]
      rw [if_neg (by decide), if_neg (by decide), if_pos trivial]
      exact ih _ c hrest

theorem parseHotkeyLoop_error_of_bad (toks : List (List Char)) :
    ∀ (m : Modifiers) (c : Option Code),
      (∃ tok ∈ toks, ¬ isModifierTok (normalizeToken tok) ∧
        parse_code (normalizeToken tok) = none) →
      ∃ tok ∈ toks, (¬ isModifierTok (normalizeToken tok) ∧
        parse_code (normalizeToken tok) = none) ∧
        parseHotkeyLoop m c toks =
          Except.error (HotkeyError.Parse (normalizeToken tok)) := by
  induction toks with
  | nil => intro m c h; exact absurd h (by simp)
  | cons tok rest ih =>
    intro m c h
    by_cases hmod : isModifierTok (normalizeToken tok)
    · have hrest : ∃ t ∈ rest, ¬ isModifierTok (normalizeToken t) ∧
          parse_code (normalizeToken t) = none := by
        rcases h with ⟨t, ht, hbad⟩
        rcases List.mem_cons.mp ht with rfl | ht'
        · exact absurd hmod hbad.1
        · exact ⟨t, ht', hbad⟩
      rcases hmod with h1 | h1 | h1 | h1
      · obtain ⟨t, ht, hbad, heq⟩ := ih (m.union Modifiers.CONTROL) c hrest
        refine ⟨t, List.mem_cons_of_mem _ ht, hbad, ?_⟩
        simp only [parseHotkeyLoop, h1]
        rw [if_pos (Or.inl trivial)]
        exact heq
      · obtain ⟨t, ht, hbad, heq⟩ := ih (m.union Modifiers.CONTROL) c hrest
        refine ⟨t, List.mem_cons_of_mem _ ht, hbad, ?_⟩
        simp only [parseHotkeyLoop, h1]
        rw [if_pos (Or.inr trivial)]
        exact heq
      · obtain ⟨t, ht, hbad, heq⟩ := ih (m.union Modifiers.ALT) c hrest
        refine ⟨t, List.mem_cons_of_mem _ ht, hbad, ?_⟩
        simp only [parseHotkeyLoop, h1]
        rw [if_neg (by decide), if_pos trivial]
        exact heq
      · obtain ⟨t, ht, hbad, heq⟩ := ih (m.union Modifiers.SHIFT) c hrest
        refine ⟨t, List.mem_cons_of_mem _ ht, hbad, ?_⟩
        simp only [parseHotkeyLoop, h1]
        rw [if_neg (by decide), if_neg (by decide), if_pos trivial]
        exact heq
    · have hnot := hmod
      unfold isModifierTok at hnot
      push_neg at hnot
      obtain ⟨h1, h2, h3, h4⟩ := hnot
      by_cases hpc : parse_code (normalizeToken tok) = none
      · refine ⟨tok, List.mem_cons_self tok rest, ⟨hmod, hpc⟩, ?_⟩
        simp only [parseHotkeyLoop]
        rw [if_neg (not_or.mpr ⟨h1, h2⟩), if_neg h3, if_neg h4, hpc]
      · obtain ⟨k, hk⟩ := Option.ne_none_iff_exists'.mp hpc
        have hrest : ∃ t ∈ rest, ¬ isModifierTok (normalizeToken t) ∧
            parse_code (normalizeToken t) = none := by
          rcases h with ⟨t, ht, hbad⟩
          rcases List.mem_cons.mp ht with rfl | ht'
          · exact absurd hbad.2 hpc
          · exact ⟨t, ht', hbad⟩
        obtain ⟨t, ht, hbad, heq⟩ := ih m (some k) hrest
        refine ⟨t, List.mem_cons_of_mem _ ht, hbad, ?_⟩
        simp only [parseHotkeyLoop]
        rw [if_neg (not_or.mpr ⟨h1, h2⟩), if_neg h3, if_neg h4, hk]
        exact heq

theorem parseHotkeyLoop_error_append (pre : List (List Char)) :
    ∀ (m : Modifiers) (c : Option Code) (bad : List Char)
      (post : List (List Char)),
      (∀ tok ∈ pre, isModifierTok (normalizeToken tok) ∨
        (parse_code (normalizeToken tok)).isSome) →
      ¬ isModifierTok (normalizeToken bad) →
      parse_code (normalizeToken bad) = none →
      parseHotkeyLoop m c (pre ++ bad :: post) =
        Except.error (HotkeyError.Parse (normalizeToken bad)) := by
  induction pre with
  | nil =>
    intro m c bad post _ hmod hpc
    unfold isModifierTok at hmod
    push_neg at hmod
    obtain ⟨h1, h2, h3, h4⟩ := hmod
    simp only [List.nil_append, parseHotkeyLoop]
    rw [if_neg (not_or.mpr ⟨h1, h2⟩), if_neg h3, if_neg h4, hpc]
  | cons tok pre ih =>
    intro m c bad post h hmod hpc
    have hpre : ∀ t ∈ pre, isModifierTok (normalizeToken t) ∨
        (parse_code (normalizeToken t)).isSome :=
      fun t ht => h t (List.mem_cons_of_mem _ ht)
    by_cases hmt : isModifierTok (normalizeToken tok)
    · rcases hmt with h1 | h1 | h1 | h1
      · simp only [List.cons_append, parseHotkeyLoop, h1]
        rw [if_pos (Or.inl trivial)]
        exact ih _ c bad post hpre hmod hpc
      · simp only [List.cons_append, parseHotkeyLoop, h1]
        rw [if_pos (Or.inr trivial)]
        exact ih _ c bad post hpre hmod hpc
      · simp only [List.cons_append, parseHotkeyLoop, h1]
        rw [if_neg (by decide), if_pos trivial]
        exact ih _ c bad post hpre hmod hpc
      · simp only [List.cons_append, parseHotkeyLoop, h1]
        rw [if_neg (by decide), if_neg (by decide), if_pos trivial]
        exact ih _ c bad post hpre hmod hpc
    · have hs := (h tok (List.mem_cons_self tok pre)).resolve_left hmt
      obtain ⟨k, hk⟩ := Option.isSome_iff_exists.mp hs
      have hnot := hmt
      unfold isModifierTok at hnot
      push_neg at hnot
      obtain ⟨h1, h2, h3, h4⟩ := hnot
      simp only [List.cons_append, parseHotkeyLoop]
      rw [if_neg (not_or.mpr ⟨h1, h2⟩), if_neg h3, if_neg h4, hk]
      exact ih m (some k) bad post hpre hmod hpc

/-- C5: `parse_hotkey` is case-insensitive — any two spec strings that
agree after lowercasing parse identically — and in particular both
`"ctrl+alt+k"` and `"CTRL+Alt+K"` parse to the modifier set {CTRL, ALT}
paired with key `k`. -/
theorem parse_hotkey_case_insensitive (s1 s2 : List Char)
    (h : s1.map rustToLower = s2.map rustToLower) :
    parse_hotkey s1 = parse_hotkey s2 ∧
    parse_hotkey "ctrl+alt+k".data =
      Except.ok (⟨true, true, false⟩, Code.KeyK) ∧
    parse_hotkey "CTRL+Alt+K".data =
      Except.ok (⟨true, true, false⟩, Code.KeyK) := by
  refine ⟨?_, by decide, by decide⟩
  rw [← parse_hotkey_map_rustToLower s1, h, parse_hotkey_map_rustToLower s2]

theorem parse_hotkey_case_insensitive_witness :
    parse_hotkey "ctrl+alt+k".data = parse_hotkey "CTRL+Alt+K".data :=
  (parse_hotkey_case_insensitive "ctrl+alt+k".data "CTRL+Alt+K".data
    (by decide)).1

/-- C4: when a hotkey spec contains more than one non-modifier token and
all of them map to valid key codes, `parse_hotkey` succeeds with the key
code of the LAST non-modifier token, silently overwriting the earlier
ones; in particular `"ctrl+alt+k+5"` parses to key `5`. -/
theorem parse_hotkey_last_nonmodifier_wins (s : List Char)
    (h1 : 1 < (nonModifierTokens s).length)
    (h2 : ∀ tok ∈ nonModifierTokens s,
      (parse_code (normalizeToken tok)).isSome) :
    (∃ m k t, (nonModifierTokens s).getLast? = some t ∧
      parse_code (normalizeToken t) = some k ∧
      parse_hotkey s = Except.ok (m, k)) ∧
    parse_hotkey "ctrl+alt+k+5".data =
      Except.ok (⟨true, true, false⟩, Code.Digit5) := by
  refine ⟨?_, by decide⟩
  have hvalid : ∀ tok ∈ splitPlus s, ¬ isModifierTok (normalizeToken tok) →
      (parse_code (normalizeToken tok)).isSome := by
    intro tok ht hn
    exact h2 tok (List.mem_filter.mpr ⟨ht, by simpa using hn⟩)
  obtain ⟨m', hloop⟩ :=
    parseHotkeyLoop_ok_of_valid (splitPlus s) Modifiers.empty none hvalid
  have hne : nonModifierTokens s ≠ [] := by
    intro hnil
    rw [hnil] at h1
    simp at h1
  obtain ⟨t, ht⟩ : ∃ t, (nonModifierTokens s).getLast? = some t := by
    cases hgl : (nonModifierTokens s).getLast? with
    | none => exact absurd (List.getLast?_eq_none_iff.mp hgl) hne
    | some t => exact ⟨t, rfl⟩
  have htmem : t ∈ nonModifierTokens s := by
    obtain ⟨ys, hys⟩ := List.getLast?_eq_some_iff.mp ht
    rw [hys]
    simp
  obtain ⟨k, hk⟩ := Option.isSome_iff_exists.mp (h2 t htmem)
  have hlast : lastKey none (splitPlus s) = some k := by
    rw [lastKey_eq_filter_getLast]
    rw [show ((splitPlus s).filter fun tok =>
        decide (¬ isModifierTok (normalizeToken tok))) = nonModifierTokens s
      from rfl]
    rw [ht]
    simp [hk]
  refine ⟨m', k, t, ht, hk, ?_⟩
  unfold parse_hotkey
  rw [hloop, hlast]

theorem parse_hotkey_last_nonmodifier_wins_witness :
    (∃ m k t, (nonModifierTokens "ctrl+alt+k+5".data).getLast? = some t ∧
      parse_code (normalizeToken t) = some k ∧
      parse_hotkey "ctrl+alt+k+5".data = Except.ok (m, k)) ∧
    parse_hotkey "ctrl+alt+k+5".data =
      Except.ok (⟨true, true, false⟩, Code.Digit5) :=
  parse_hotkey_last_nonmodifier_wins "ctrl+alt+k+5".data (by decide) (by decide)

/-- C6: a spec string whose tokens are all modifier tokens leaves the key
accumulator empty, so `parse_hotkey` fails with `Parse("missing key")`;
in particular `"ctrl"` alone fails this way. -/
theorem parse_hotkey_all_modifiers_missing_key (s : List Char)
    (h : ∀ tok ∈ splitPlus s, isModifierTok (normalizeToken tok)) :
    parse_hotkey s = Except.error (HotkeyError.Parse "missing key".data) ∧
    parse_hotkey "ctrl".data =
      Except.error (HotkeyError.Parse "missing key".data) := by
  refine ⟨?_, by decide⟩
  obtain ⟨m', hloop⟩ :=
    parseHotkeyLoop_all_modifiers (splitPlus s) Modifiers.empty none h
  unfold parse_hotkey
  rw [hloop]

theorem parse_hotkey_all_modifiers_missing_key_witness :
    parse_hotkey "ctrl".data =
      Except.error (HotkeyError.Parse "missing key".data) :=
  (parse_hotkey_all_modifiers_missing_key "ctrl".data (by decide)).1

/-- C7: a spec string containing a token that is neither a modifier nor
one of the 36 alphanumeric key codes makes `parse_hotkey` fail with a
`Parse` error naming such an offending token (in its trimmed, lowercased
form); in particular `"xyz"` fails with `Parse("xyz")`. -/
theorem parse_hotkey_unrecognized_token (s : List Char)
    (h : ∃ tok ∈ splitPlus s, ¬ isModifierTok (normalizeToken tok) ∧
      parse_code (normalizeToken tok) = none) :
    (∃ tok ∈ splitPlus s, (¬ isModifierTok (normalizeToken tok) ∧
      parse_code (normalizeToken tok) = none) ∧
      parse_hotkey s = Except.error (HotkeyError.Parse (normalizeToken tok))) ∧
    parse_hotkey "xyz".data = Except.error (HotkeyError.Parse "xyz".data) := by
  refine ⟨?_, by decide⟩
  obtain ⟨t, ht, hbad, heq⟩ :=
    parseHotkeyLoop_error_of_bad (splitPlus s) Modifiers.empty none h
  refine ⟨t, ht, hbad, ?_⟩
  unfold parse_hotkey
  rw [heq]

theorem parse_hotkey_unrecognized_token_witness :
    (∃ tok ∈ splitPlus "xyz".data,
      (¬ isModifierTok (normalizeToken tok) ∧
        parse_code (normalizeToken tok) = none) ∧
      parse_hotkey "xyz".data =
        Except.error (HotkeyError.Parse (normalizeToken tok))) ∧
    parse_hotkey "xyz".data = Except.error (HotkeyError.Parse "xyz".data) :=
  parse_hotkey_unrecognized_token "xyz".data
    ⟨"xyz".data, by decide, by decide, by decide⟩

/-- C9: the loop aborts at the FIRST token that is neither a modifier nor
a valid key code, naming that token, even when a valid key token follows
later in the string; in particular `"xyz+k"` fails with `Parse("xyz")`.
The last-wins rule of C4 only arbitrates between tokens that all parse. -/
theorem parse_hotkey_fails_at_first_bad_token (s : List Char)
    (pre post : List (List Char)) (bad : List Char)
    (hsplit : splitPlus s = pre ++ bad :: post)
    (hpre : ∀ tok ∈ pre, isModifierTok (normalizeToken tok) ∨
      (parse_code (normalizeToken tok)).isSome)
    (hmod : ¬ isModifierTok (normalizeToken bad))
    (hpc : parse_code (normalizeToken bad) = none) :
    parse_hotkey s = Except.error (HotkeyError.Parse (normalizeToken bad)) ∧
    parse_hotkey "xyz+k".data =
      Except.error (HotkeyError.Parse "xyz".data) := by
  refine ⟨?_, by decide⟩
  unfold parse_hotkey
  rw [hsplit,
    parseHotkeyLoop_error_append pre Modifiers.empty none bad post hpre hmod hpc]

theorem parse_hotkey_fails_at_first_bad_token_witness :
    parse_hotkey "xyz+k".data =
      Except.error (HotkeyError.Parse (normalizeToken "xyz".data)) ∧
    parse_hotkey "xyz+k".data =
      Except.error (HotkeyError.Parse "xyz".data) :=
  parse_hotkey_fails_at_first_bad_token "xyz+k".data [] [['k']] "xyz".data
    (by decide) (by decide) (by decide) (by decide)

/-- C10: the empty spec string splits into the single empty token, which
is unrecognised, so `parse_hotkey` fails with `Parse("")` naming the
empty token — not with the `"missing key"` error. -/
theorem parse_hotkey_empty_input :
    parse_hotkey [] = Except.error (HotkeyError.Parse []) ∧
    parse_hotkey [] ≠ Except.error (HotkeyError.Parse "missing key".data) := by
  decide

/-- C1 counterexample: when the input stream is closed before any line
completes, `read_line` succeeds with zero bytes (no trailing newline), and
the fallback `wait` returns `Ok(())` — not `Err(Interrupt)` as the claim
states. -/
theorem wait_fallback_closed_stream_cex :
    lineCompleted [] = false ∧
    HotkeyListener.wait ⟨"k".data⟩ (ReadLineOutcome.ok []) = Except.ok () :=
  ⟨rfl, rfl⟩

/-- C1 (amended): the fallback `wait` returns `Ok(())` exactly once per
successful `read_line` call — including completed input lines, but also
end-of-file reads where the stream closed before a line completed — and
returns `Err(Interrupt(e))` exactly when the read fails with I/O error
`e`. -/
theorem wait_fallback_ok_iff_read_ok :
    (∀ (l : HotkeyListener) (line : List Char),
      HotkeyListener.wait l (ReadLineOutcome.ok line) = Except.ok ()) ∧
    (∀ (l : HotkeyListener) (e : IOErr),
      HotkeyListener.wait l (ReadLineOutcome.err e) =
        Except.error (HotkeyError.Interrupt e)) :=
  ⟨fun _ _ => rfl, fun _ _ => rfl⟩

/-- C2: on a non-empty audio buffer, when the recognizer is created
successfully, `transcribe` returns exactly `extract_text` of the final
result the recognizer produces after being fed the whole buffer; and the
extraction policy is: a single-hypothesis result's own text, a
multi-hypothesis result's first alternative's text, or the empty string
when the alternative list is empty. -/
theorem transcribe_result_extraction {M R : Type} (t : Transcriber M)
    (env : VoskEnv M R) (audio : List Int) (r : R)
    (ha : audio ≠ [])
    (hr : env.newRecognizer t.model t.sample_rate = some r) :
    t.transcribe env audio =
      Except.ok (extract_text (env.finalResult (env.acceptWaveform r audio))) ∧
    (∀ single, extract_text (CompleteResult.Single single) = single.text) ∧
    (∀ a as, extract_text (CompleteResult.Multiple ⟨a :: as⟩) = a.text) ∧
    extract_text (CompleteResult.Multiple ⟨[]⟩) = [] := by
  refine ⟨?_, fun single => rfl, fun a as => rfl, rfl⟩
  unfold Transcriber.transcribe
  rw [if_neg (by simpa using ha), hr]

theorem transcribe_result_extraction_witness :
    Transcriber.transcribe (M := Unit) (R := Unit) ⟨(), 16000⟩
        ⟨fun _ _ => some (), fun r _ => r, fun _ =>
          CompleteResult.Single ⟨"hello".data⟩⟩ [1] =
      Except.ok (extract_text (CompleteResult.Single ⟨"hello".data⟩)) :=
  (transcribe_result_extraction ⟨(), 16000⟩
    ⟨fun _ _ => some (), fun r _ => r, fun _ =>
      CompleteResult.Single ⟨"hello".data⟩⟩ [1] () (by decide) rfl).1

/-- C3: for every Transcriber, `transcribe` on the empty audio buffer
returns `Ok("")` by the fast path, for every possible recognizer
behaviour — in particular even when recognizer construction would have
failed. -/
theorem transcribe_empty_buffer {M R : Type} (t : Transcriber M)
    (env : VoskEnv M R) : t.transcribe env [] = Except.ok [] := rfl

theorem transcribe_empty_buffer_witness :
    Transcriber.transcribe (M := Unit) (R := Unit) ⟨(), 16000⟩
        ⟨fun _ _ => none, fun r _ => r, fun _ =>
          CompleteResult.Multiple ⟨[]⟩⟩ [] = Except.ok [] :=
  transcribe_empty_buffer ⟨(), 16000⟩
    ⟨fun _ _ => none, fun r _ => r, fun _ => CompleteResult.Multiple ⟨[]⟩⟩

/-- C8: a `Recognizer` error in one `transcribe` call leaves the
Transcriber's stored model and sample rate unchanged, and a subsequent
call on the resulting state returns exactly what it would have returned
had the failing call never happened. -/
theorem transcribe_error_no_poisoning {M R : Type} (t : Transcriber M)
    (env env2 : VoskEnv M R) (audio1 audio2 : List Int) (msg : List Char)
    (_h : (transcribeCall t env audio1).1 =
      Except.error (TranscriptionError.Recognizer msg)) :
    (transcribeCall t env audio1).2.model = t.model ∧
    (transcribeCall t env audio1).2.sample_rate = t.sample_rate ∧
    (transcribeCall (transcribeCall t env audio1).2 env2 audio2).1 =
      (transcribeCall t env2 audio2).1 :=
  ⟨rfl, rfl, rfl⟩

theorem transcribe_error_no_poisoning_witness :
    (transcribeCall (M := Unit) (R := Unit) ⟨(), 16000⟩
        ⟨fun _ _ => none, fun r _ => r, fun _ =>
          CompleteResult.Multiple ⟨[]⟩⟩ [1]).2.model = () ∧
    (transcribeCall (M := Unit) (R := Unit) ⟨(), 16000⟩
        ⟨fun _ _ => none, fun r _ => r, fun _ =>
          CompleteResult.Multiple ⟨[]⟩⟩ [1]).2.sample_rate = 16000 ∧
    (transcribeCall (M := Unit) (R := Unit)
        (transcribeCall (M := Unit) (R := Unit) ⟨(), 16000⟩
          ⟨fun _ _ => none, fun r _ => r, fun _ =>
            CompleteResult.Multiple ⟨[]⟩⟩ [1]).2
        ⟨fun _ _ => none, fun r _ => r, fun _ =>
          CompleteResult.Multiple ⟨[]⟩⟩ [2]).1 =
      (transcribeCall (M := Unit) (R := Unit) ⟨(), 16000⟩
        ⟨fun _ _ => none, fun r _ => r, fun _ =>
          CompleteResult.Multiple ⟨[]⟩⟩ [2]).1 :=
  transcribe_error_no_poisoning ⟨(), 16000⟩
    ⟨fun _ _ => none, fun r _ => r, fun _ => CompleteResult.Multiple ⟨[]⟩⟩
    ⟨fun _ _ => none, fun r _ => r, fun _ => CompleteResult.Multiple ⟨[]⟩⟩
    [1] [2] "failed to create recognizer".data rfl
